import Mathlib

/-
Verification of the polar-XZ kinematics module (klippy/kinematics/polarxz.py).

The Python source works on machine floats; the shallow embedding below uses
real numbers.  Points are pairs of reals; the 4-component Cartesian positions
of a planned move are embedded as triples (the trailing auxiliary axis is
never read by this module).  Stateful methods become explicit state passing,
and the calls the module makes on external collaborators (the planner's
`limit_speed`, the homing coordinator's `home_rails`) are recorded as data in
the order they are issued.
-/

namespace PolarXZ

/-- From `distance` in polarxz.py: planar Euclidean distance. -/
noncomputable def distance (p1 p2 : ℝ × ℝ) : ℝ :=
  Real.sqrt ((p2.1 - p1.1) ^ 2 + (p2.2 - p1.2) ^ 2)

/-- From `sqrdistance` in polarxz.py: planar squared Euclidean distance. -/
def sqrdistance (p1 p2 : ℝ × ℝ) : ℝ :=
  (p2.1 - p1.1) ^ 2 + (p2.2 - p1.2) ^ 2

/-- From `crosses_point` in polarxz.py: the loose proximity test used to decide
whether a move passes near a checkpoint.  The source returns a boolean; here it
is the corresponding proposition. -/
def crosses_point (checkpoint p1 p2 : ℝ × ℝ) : Prop :=
  sqrdistance checkpoint p1 ≤ sqrdistance p1 p2 ∧
    sqrdistance checkpoint p2 ≤ sqrdistance p1 p2

noncomputable instance (checkpoint p1 p2 : ℝ × ℝ) :
    Decidable (crosses_point checkpoint p1 p2) := by
  unfold crosses_point
  infer_instance

/-- From `PolarXZKinematics.calc_position` in polarxz.py: the forward transform
from actuator positions (bed angle, radial rail position, z rail position) to
Cartesian coordinates.  The source reads the three positions out of a
dictionary keyed by stepper name and returns a doubly nested Python list
`[[x, y, z]]`; the embedding takes the three positions as arguments and
mirrors the nested-list return shape. -/
noncomputable def calc_position (bed_angle x_pos z_pos : ℝ) : List (List ℝ) :=
  [[0.5 * (Real.cos bed_angle * x_pos - z_pos),
    Real.sin bed_angle * x_pos,
    0.5 * (x_pos + z_pos)]]

/-- Error outcomes of `check_move`.  The source raises
`move.move_error("Must home axis first")` (embedded as `unhomed`) or the
bare `move.move_error()` (embedded as `outOfRange`). -/
inductive MoveErr where
  | unhomed : MoveErr
  | outOfRange : MoveErr
  deriving DecidableEq

/-- The boundary/limit fields of `PolarXZKinematics` read by `check_move`:
`limit_xy2`, `limit_z`, the four configured rotational/Z limits, and
`axes_min[0]` (which `__init__` sets to minus the radial rail's maximum
travel). -/
structure Limits where
  limit_xy2 : ℝ
  limit_z : ℝ × ℝ
  max_rotational_velocity : ℝ
  max_rotational_accel : ℝ
  max_z_velocity : ℝ
  max_z_accel : ℝ
  axes_min_x : ℝ

/-- The fields of the planner's move descriptor read by `check_move` and
`segment_move`.  Cartesian positions and per-axis deltas are embedded as
triples (x, y, z); the 4th (auxiliary) component is never read. -/
structure Move where
  start_pos : ℝ × ℝ × ℝ
  end_pos : ℝ × ℝ × ℝ
  axes_d : ℝ × ℝ × ℝ
  move_d : ℝ

/-- From `PolarXZKinematics.check_move` in polarxz.py.  The result records,
in order, the argument pairs of the `move.limit_speed(...)` calls issued, and
the error raised, if any.  (In the source the rotational `limit_speed` call
precedes the Z-window check, so a move's ceiling can be tightened even when
the move is subsequently rejected; the embedding keeps those calls.)
The source also binds a local `pi = 3.1415` in the rotational branch which is
never used: `scale` is computed from `math.pi`. -/
noncomputable def check_move (k : Limits) (m : Move) : List (ℝ × ℝ) × Option MoveErr :=
  let xy2 := m.end_pos.1 ^ 2 + m.end_pos.2.1 ^ 2
  if xy2 > k.limit_xy2 then
    ([], some (if k.limit_xy2 < 0 then MoveErr.unhomed else MoveErr.outOfRange))
  else
    let rot_calls : List (ℝ × ℝ) :=
      if m.axes_d.1 ≠ 0 ∨ m.axes_d.2.1 ≠ 0 then
        let bed_center : ℝ × ℝ := (0, 0)
        let bed_radius := distance bed_center (bed_center.1, k.axes_min_x)
        let start_radius := distance bed_center (m.start_pos.1, m.start_pos.2.1)
        let end_radius := distance bed_center (m.end_pos.1, m.end_pos.2.1)
        let scale := 2 * Real.pi * (min start_radius end_radius / bed_radius)
        [(k.max_rotational_accel, k.max_rotational_velocity * scale)]
      else []
    if m.axes_d.2.2 ≠ 0 then
      if m.end_pos.2.2 < k.limit_z.1 ∨ m.end_pos.2.2 > k.limit_z.2 then
        (rot_calls,
         some (if k.limit_z.1 > k.limit_z.2 then MoveErr.unhomed else MoveErr.outOfRange))
      else
        let z_ratio := m.move_d / |m.axes_d.2.2|
        (rot_calls ++ [(k.max_z_velocity * z_ratio, k.max_z_accel * z_ratio)], none)
    else
      (rot_calls, none)

/-- Squared distances are symmetric in their arguments. -/
theorem sqrdistance_comm (p q : ℝ × ℝ) : sqrdistance p q = sqrdistance q p := by
  unfold sqrdistance
  ring

/-- Claim C9: `crosses_point` is symmetric in its last two arguments. -/
theorem c9_crosses_point_symm (p a b : ℝ × ℝ) :
    crosses_point p a b ↔ crosses_point p b a := by
  unfold crosses_point
  rw [sqrdistance_comm a b]
  exact and_comm

/-- Claim C5: `calc_position` computes x = 0.5·(cos θ·r − z), y = sin θ·r,
z_cart = 0.5·(r + z) (wrapped, as in the source, in a singleton list), and in
particular maps (θ=0, r=10, z=2) to (4, 0, 6) and (θ=π/2, r=10, z=0) to
(0, 10, 5). -/
theorem c5_calc_position (θ r z : ℝ) :
    calc_position θ r z =
      [[0.5 * (Real.cos θ * r - z), Real.sin θ * r, 0.5 * (r + z)]] ∧
    calc_position 0 10 2 = [[4, 0, 6]] ∧
    calc_position (Real.pi / 2) 10 0 = [[0, 10, 5]] := by
  refine ⟨rfl, ?_, ?_⟩ <;>
    norm_num [calc_position, Real.cos_pi_div_two, Real.sin_pi_div_two]

/-- Claim C3: `check_move` fails exactly when the destination violates the
planar radius limit (unhomed error when `limit_xy2` holds its negative
sentinel, generic out-of-range error otherwise), or — the radius check having
passed — the move has nonzero vertical displacement and its destination Z
lies outside `limit_z` (unhomed error when the window is inverted, generic
error otherwise); no other condition produces a failure. -/
theorem c3_check_move_failure_cases (k : Limits) (m : Move) :
    ((check_move k m).2 = some MoveErr.unhomed ↔
      (m.end_pos.1 ^ 2 + m.end_pos.2.1 ^ 2 > k.limit_xy2 ∧ k.limit_xy2 < 0) ∨
      (¬ (m.end_pos.1 ^ 2 + m.end_pos.2.1 ^ 2 > k.limit_xy2) ∧ m.axes_d.2.2 ≠ 0 ∧
        (m.end_pos.2.2 < k.limit_z.1 ∨ m.end_pos.2.2 > k.limit_z.2) ∧
        k.limit_z.1 > k.limit_z.2)) ∧
    ((check_move k m).2 = some MoveErr.outOfRange ↔
      (m.end_pos.1 ^ 2 + m.end_pos.2.1 ^ 2 > k.limit_xy2 ∧ ¬ k.limit_xy2 < 0) ∨
      (¬ (m.end_pos.1 ^ 2 + m.end_pos.2.1 ^ 2 > k.limit_xy2) ∧ m.axes_d.2.2 ≠ 0 ∧
        (m.end_pos.2.2 < k.limit_z.1 ∨ m.end_pos.2.2 > k.limit_z.2) ∧
        ¬ k.limit_z.1 > k.limit_z.2)) ∧
    ((check_move k m).2 ≠ none ↔
      m.end_pos.1 ^ 2 + m.end_pos.2.1 ^ 2 > k.limit_xy2 ∨
      (m.axes_d.2.2 ≠ 0 ∧
        (m.end_pos.2.2 < k.limit_z.1 ∨ m.end_pos.2.2 > k.limit_z.2))) := by
  simp only [check_move]
  by_cases h1 : m.end_pos.1 ^ 2 + m.end_pos.2.1 ^ 2 > k.limit_xy2
  · rw [if_pos h1]
    by_cases h2 : k.limit_xy2 < 0
    · rw [if_pos h2]; simp [h1, h2]
    · rw [if_neg h2]; simp [h1, h2]
  · rw [if_neg h1]
    by_cases h3 : m.axes_d.2.2 ≠ 0
    · by_cases h4 : m.end_pos.2.2 < k.limit_z.1 ∨ m.end_pos.2.2 > k.limit_z.2
      · rw [if_pos h3, if_pos h4]
        by_cases h5 : k.limit_z.1 > k.limit_z.2
        · rw [if_pos h5]; simp [h1, h3, h4, h5]
        · rw [if_neg h5]; simp [h1, h3, h4, h5]
      · rw [if_pos h3, if_neg h4]; simp [h1, h3, h4]
    · rw [if_neg h3]; simp [h1, h3]

/-- Claim C10: while the planar limit holds its unhomed sentinel
(`limit_xy2 < 0`), `check_move` rejects every move with the unhomed error and
issues no speed-limit call, since `end.x² + end.y² ≥ 0` always exceeds the
negative sentinel. -/
theorem c10_unhomed_rejects_every_move (k : Limits) (m : Move)
    (h : k.limit_xy2 < 0) :
    (check_move k m).2 = some MoveErr.unhomed ∧ (check_move k m).1 = [] := by
  have hgt : m.end_pos.1 ^ 2 + m.end_pos.2.1 ^ 2 > k.limit_xy2 :=
    lt_of_lt_of_le h (by positivity)
  unfold check_move
  rw [if_pos hgt, if_pos h]
  exact ⟨rfl, rfl⟩

/-- Unhomed kinematics state: both limits hold their sentinels, all four
configured maxima set to 1, radial rail maximum 1 (so `axes_min[0] = -1`). -/
noncomputable def unhomedLimits : Limits := ⟨-1, (1, -1), 1, 1, 1, 1, -1⟩

/-- A pure-Z move ending exactly at the origin. -/
noncomputable def pureZMove : Move := ⟨(0, 0, 0), (0, 0, 0), (0, 0, 1), 1⟩

/-- Witness for C10 at a concrete unhomed state and a pure-Z move ending at
the origin. -/
theorem c10_witness :
    (check_move unhomedLimits pureZMove).2 = some MoveErr.unhomed ∧
    (check_move unhomedLimits pureZMove).1 = [] :=
  c10_unhomed_rejects_every_move unhomedLimits pureZMove
    (by norm_num [unhomedLimits])

/-- Homed kinematics state with radius limit 4, Z window (0, 10), all
configured maxima 1, radial rail maximum 1. -/
noncomputable def homedLimits : Limits := ⟨4, (0, 10), 1, 1, 1, 1, -1⟩

/-- A purely planar move from (1,0) to (0,1); both endpoint radii equal 1. -/
noncomputable def planarMove : Move := ⟨(1, 0, 0), (0, 1, 0), (-1, 1, 0), 2⟩

/-- Evaluation of `check_move` on the concrete planar move: the single
`limit_speed` call carries velocity factor 2·π (full-precision π). -/
theorem check_move_planar_eval :
    check_move homedLimits planarMove = ([(1, 2 * Real.pi)], none) := by
  unfold check_move homedLimits planarMove
  norm_num [distance]

/-- Claim C1 counterexample: at the concrete homed state and planar move
above (both endpoint radii 1, bed radius 1), the claim predicts the single
`limit_speed` call `(max_rotational_accel, max_rotational_velocity · 2 ·
3.1415 · 1)` = `(1, 2 · 3.1415)`, but the code computes the scale from
full-precision `math.pi`, producing `(1, 2·π)` — and `2·π ≠ 2·3.1415`. -/
theorem c1_counterexample :
    (check_move homedLimits planarMove).1 = [(1, 2 * Real.pi)] ∧
    (check_move homedLimits planarMove).1 ≠ [(1, 2 * 3.1415)] := by
  have hpi : (2 : ℝ) * Real.pi ≠ 2 * 3.1415 := by
    have h4 := Real.pi_gt_d4
    intro h
    nlinarith
  rw [check_move_planar_eval]
  exact ⟨rfl, by simp [hpi]⟩

/-- Claim C1 (amended): for every move with nonzero planar displacement that
passes the radius check, the rotational branch issues a `limit_speed` call
whose arguments are, in call order, `max_rotational_accel` and
`max_rotational_velocity · scale` with
`scale = 2·π·min(start_radius, end_radius)/bed_radius` computed from
full-precision π (the source's local four-digit binding `pi = 3.1415` is
dead), `bed_radius` the distance from the rotation center to
`(0, axes_min[0])` and `start_radius`/`end_radius` the planar distances of
the endpoints from the rotation center. -/
theorem c1_rotational_scale (k : Limits) (m : Move)
    (hplanar : m.axes_d.1 ≠ 0 ∨ m.axes_d.2.1 ≠ 0)
    (hradius : ¬ (m.end_pos.1 ^ 2 + m.end_pos.2.1 ^ 2 > k.limit_xy2)) :
    (check_move k m).1.head? =
      some (k.max_rotational_accel,
        k.max_rotational_velocity *
          (2 * Real.pi *
            (min (distance (0, 0) (m.start_pos.1, m.start_pos.2.1))
                 (distance (0, 0) (m.end_pos.1, m.end_pos.2.1)) /
             distance (0, 0) ((0 : ℝ), k.axes_min_x)))) := by
  simp only [check_move]
  rw [if_neg hradius, if_pos hplanar]
  by_cases hz : m.axes_d.2.2 ≠ 0
  · rw [if_pos hz]
    by_cases hout : m.end_pos.2.2 < k.limit_z.1 ∨ m.end_pos.2.2 > k.limit_z.2
    · rw [if_pos hout]
      rfl
    · rw [if_neg hout]
      simp
  · rw [if_neg hz]
    rfl

/-- Witness for the amended C1 at the concrete homed state and planar move. -/
theorem c1_rotational_scale_witness :
    (check_move homedLimits planarMove).1.head? =
      some (homedLimits.max_rotational_accel,
        homedLimits.max_rotational_velocity *
          (2 * Real.pi *
            (min (distance (0, 0) (planarMove.start_pos.1, planarMove.start_pos.2.1))
                 (distance (0, 0) (planarMove.end_pos.1, planarMove.end_pos.2.1)) /
             distance (0, 0) ((0 : ℝ), homedLimits.axes_min_x)))) :=
  c1_rotational_scale homedLimits planarMove
    (by norm_num [planarMove]) (by norm_num [planarMove, homedLimits])

/-- Claim C6: for every move with nonzero vertical displacement that passes
both the radius check and the Z-window check, `check_move` ends its
`limit_speed` calls with the pair whose arguments are, in call order,
`max_z_velocity · z_ratio` and `max_z_accel · z_ratio`, where
`z_ratio = move_d / |Δz|` exactly; the divisor `|Δz|` is nonzero because the
branch is only reached when the vertical delta is nonzero. -/
theorem c6_z_ratio_tightening (k : Limits) (m : Move)
    (hz : m.axes_d.2.2 ≠ 0)
    (hradius : ¬ (m.end_pos.1 ^ 2 + m.end_pos.2.1 ^ 2 > k.limit_xy2))
    (hwin : ¬ (m.end_pos.2.2 < k.limit_z.1 ∨ m.end_pos.2.2 > k.limit_z.2)) :
    (check_move k m).1.getLast? =
      some (k.max_z_velocity * (m.move_d / |m.axes_d.2.2|),
            k.max_z_accel * (m.move_d / |m.axes_d.2.2|)) ∧
      (check_move k m).2 = none ∧ |m.axes_d.2.2| ≠ 0 := by
  simp only [check_move]
  rw [if_neg hradius, if_pos hz, if_neg hwin]
  exact ⟨List.getLast?_concat _, rfl, abs_ne_zero.mpr hz⟩

/-- A homed pure-Z move of length 5 with vertical delta 5. -/
noncomputable def zMove : Move := ⟨(0, 0, 0), (0, 0, 5), (0, 0, 5), 5⟩

/-- Witness for C6 at the concrete homed state and pure-Z move. -/
theorem c6_z_ratio_tightening_witness :
    (check_move homedLimits zMove).1.getLast? =
      some (homedLimits.max_z_velocity * (zMove.move_d / |zMove.axes_d.2.2|),
            homedLimits.max_z_accel * (zMove.move_d / |zMove.axes_d.2.2|)) ∧
      (check_move homedLimits zMove).2 = none ∧ |zMove.axes_d.2.2| ≠ 0 :=
  c6_z_ratio_tightening homedLimits zMove
    (by norm_num [zMove]) (by norm_num [zMove, homedLimits])
    (by norm_num [zMove, homedLimits])

/-- A linear rail as consumed by this module: travel range
`[position_min, position_max]` plus homing metadata (endstop position and
homing direction), mirroring `rail.get_range()` and `rail.get_homing_info()`. -/
structure Rail where
  position_min : ℝ
  position_max : ℝ
  position_endstop : ℝ
  positive_dir : Bool

/-- The boundary-limit state of `PolarXZKinematics`: `limit_xy2` and
`limit_z`. -/
structure BState where
  limit_xy2 : ℝ
  limit_z : ℝ × ℝ

/-- State at construction (`__init__`): both limits hold their unhomed
sentinels `limit_z = (1.0, -1.0)` and `limit_xy2 = -1.0`. -/
noncomputable def initB : BState := ⟨-1, (1, -1)⟩

/-- The three mutations of the boundary state. -/
inductive BEvent where
  | setPosition (homing_axes : List ℕ) : BEvent
  | noteZNotHomed : BEvent
  | motorOff : BEvent

/-- From `PolarXZKinematics.set_position`: if axis 2 is among the homing
axes, `limit_z` becomes the Z rail's range; if both planar axes are among
them, `limit_xy2` becomes the square of the radial rail's maximum travel. -/
noncomputable def set_position (rx rz : Rail) (s : BState) (homing_axes : List ℕ) :
    BState :=
  let s1 := if 2 ∈ homing_axes then
      { s with limit_z := (rz.position_min, rz.position_max) } else s
  if 0 ∈ homing_axes ∧ 1 ∈ homing_axes then
    { s1 with limit_xy2 := rx.position_max ^ 2 } else s1

/-- From `PolarXZKinematics.note_z_not_homed`: reset `limit_z` to its
unhomed sentinel. -/
noncomputable def note_z_not_homed (s : BState) : BState :=
  { s with limit_z := (1, -1) }

/-- From `PolarXZKinematics._motor_off`: reset both limits to their unhomed
sentinels. -/
noncomputable def motor_off (_ : BState) : BState := ⟨-1, (1, -1)⟩

/-- One boundary-state transition. -/
noncomputable def bstep (rx rz : Rail) (s : BState) : BEvent → BState
  | BEvent.setPosition homing_axes => set_position rx rz s homing_axes
  | BEvent.noteZNotHomed => note_z_not_homed s
  | BEvent.motorOff => motor_off s

/-- The boundary state reached from construction after a sequence of
events. -/
noncomputable def brun (rx rz : Rail) (events : List BEvent) : BState :=
  events.foldl (bstep rx rz) initB

/-- Spec-side flag: whether a `set_position` naming both planar axes has
occurred since construction or the last motor-disable. -/
def xyHomedF (b : Bool) : BEvent → Bool
  | BEvent.setPosition homing_axes =>
      b || (decide (0 ∈ homing_axes) && decide (1 ∈ homing_axes))
  | BEvent.noteZNotHomed => b
  | BEvent.motorOff => false

/-- Spec-side flag: whether a `set_position` naming the Z axis has occurred
since the last Z reset (motor-disable or `note_z_not_homed`). -/
def zHomedF (b : Bool) : BEvent → Bool
  | BEvent.setPosition homing_axes => b || decide (2 ∈ homing_axes)
  | BEvent.noteZNotHomed => false
  | BEvent.motorOff => false

/-- XY-homed flag after a sequence of events from construction. -/
def xyHomedSince (events : List BEvent) : Bool := events.foldl xyHomedF false

/-- Z-homed flag after a sequence of events from construction. -/
def zHomedSince (events : List BEvent) : Bool := events.foldl zHomedF false

/-- Transfer lemma: the homed/unhomed reading of each limit tracks the
spec-side flags across any event sequence, from any state consistent with
the flags. -/
theorem brun_aux (rx rz : Rail) (hrange : rz.position_min ≤ rz.position_max)
    (events : List BEvent) :
    ∀ (s : BState) (bx bz : Bool),
      (s.limit_xy2 ≥ 0 ↔ bx = true) →
      (s.limit_z.1 ≤ s.limit_z.2 ↔ bz = true) →
      ((events.foldl (bstep rx rz) s).limit_xy2 ≥ 0 ↔
        events.foldl xyHomedF bx = true) ∧
      ((events.foldl (bstep rx rz) s).limit_z.1 ≤
          (events.foldl (bstep rx rz) s).limit_z.2 ↔
        events.foldl zHomedF bz = true) := by
  induction events with
  | nil =>
    intro s bx bz hx hz
    simpa using ⟨hx, hz⟩
  | cons e rest ih =>
    intro s bx bz hx hz
    simp only [List.foldl_cons]
    refine ih _ _ _ ?_ ?_
    · cases e with
      | setPosition homing_axes =>
        by_cases hxy : 0 ∈ homing_axes ∧ 1 ∈ homing_axes
        · by_cases h2 : 2 ∈ homing_axes <;>
            simp [bstep, set_position, xyHomedF, hxy, hxy.1, hxy.2, h2,
              sq_nonneg, ge_iff_le]
        · by_cases h2 : 2 ∈ homing_axes <;>
            · have hb : (decide (0 ∈ homing_axes) && decide (1 ∈ homing_axes)) = false := by
                simpa using hxy
              simp [bstep, set_position, xyHomedF, hxy, h2, hb, hx]
      | noteZNotHomed =>
        simpa [bstep, note_z_not_homed, xyHomedF] using hx
      | motorOff =>
        norm_num [bstep, motor_off, xyHomedF]
    · cases e with
      | setPosition homing_axes =>
        by_cases h2 : 2 ∈ homing_axes
        · by_cases hxy : 0 ∈ homing_axes ∧ 1 ∈ homing_axes <;>
            simp [bstep, set_position, zHomedF, h2, hxy, hrange]
        · by_cases hxy : 0 ∈ homing_axes ∧ 1 ∈ homing_axes <;>
            simp [bstep, set_position, zHomedF, h2, hxy, hz]
      | noteZNotHomed =>
        norm_num [bstep, note_z_not_homed, zHomedF]
      | motorOff =>
        norm_num [bstep, motor_off, zHomedF]

/-- Claim C4: in every state reachable from construction, `limit_xy2 ≥ 0`
iff a `set_position` naming both planar axes has occurred since construction
or the last motor-disable, and `limit_z.1 ≤ limit_z.2` iff a `set_position`
naming the Z axis has occurred since the last Z reset (motor-disable or
`note_z_not_homed`); a motor-disable resets both limits to the unhomed
sentinels regardless of the prior state.  The rail ranges are well-formed
(`position_min ≤ position_max`), as the spec's data model requires of an
`AxisRail`. -/
theorem c4_boundary_invariant (rx rz : Rail)
    (hrange : rz.position_min ≤ rz.position_max) (events : List BEvent) :
    ((brun rx rz events).limit_xy2 ≥ 0 ↔ xyHomedSince events = true) ∧
    ((brun rx rz events).limit_z.1 ≤ (brun rx rz events).limit_z.2 ↔
      zHomedSince events = true) ∧
    (∀ s : BState, bstep rx rz s BEvent.motorOff = initB) := by
  have h := brun_aux rx rz hrange events initB false false
    (by norm_num [initB]) (by norm_num [initB])
  exact ⟨h.1, h.2, fun s => rfl⟩

/-- Radial rail used in concrete homing states: range [0, 10], endstop at
10, homing in the positive direction. -/
noncomputable def railA : Rail := ⟨0, 10, 10, true⟩

/-- Z rail used in concrete homing states: range [0, 8], endstop at 0,
homing in the negative direction. -/
noncomputable def railB : Rail := ⟨0, 8, 0, false⟩

/-- Witness for C4: home everything, cut motor power, then re-home only Z;
afterwards XY reads unhomed and Z reads homed. -/
theorem c4_boundary_invariant_witness :
    ((brun railA railB
        [BEvent.setPosition [0, 1, 2], BEvent.motorOff,
         BEvent.setPosition [2]]).limit_xy2 ≥ 0 ↔
      xyHomedSince
        [BEvent.setPosition [0, 1, 2], BEvent.motorOff,
         BEvent.setPosition [2]] = true) ∧
    ((brun railA railB
        [BEvent.setPosition [0, 1, 2], BEvent.motorOff,
         BEvent.setPosition [2]]).limit_z.1 ≤
        (brun railA railB
          [BEvent.setPosition [0, 1, 2], BEvent.motorOff,
           BEvent.setPosition [2]]).limit_z.2 ↔
      zHomedSince
        [BEvent.setPosition [0, 1, 2], BEvent.motorOff,
         BEvent.setPosition [2]] = true) ∧
    (∀ s : BState, bstep railA railB s BEvent.motorOff = initB) :=
  c4_boundary_invariant railA railB (by norm_num [railB]) _

/-- One hand-off to the external homing coordinator, recording the arguments
of a `homing_state.home_rails(rails, forcepos, homepos)` call.  Unset
position entries (Python `None`) are `none`. -/
structure HomeCall where
  rails : List Rail
  forcepos : List (Option ℝ)
  homepos : List (Option ℝ)

/-- From `PolarXZKinematics._home_axis` (strategy A): build the home and
pre-homing force positions for one axis on one rail and hand them off. -/
noncomputable def home_axis (axis : ℕ) (rail : Rail) : HomeCall :=
  let homepos0 : List (Option ℝ) :=
    List.set [none, none, none, none] axis (some rail.position_endstop)
  let homepos := if axis = 0 then List.set homepos0 1 (some 0) else homepos0
  let forcepos :=
    if rail.positive_dir then
      List.set homepos axis
        (some (rail.position_endstop -
          (rail.position_endstop - rail.position_min)))
    else
      List.set homepos axis
        (some (rail.position_endstop +
          (rail.position_max - rail.position_endstop)))
  ⟨[rail], forcepos, homepos⟩

/-- From `PolarXZKinematics.home` (strategy A): normalize the requested axes
(both planar axes together whenever either was requested) and issue the
homing moves; the result is the normalized axes list handed to `set_axes`
and the `home_rails` calls in order. -/
noncomputable def home (rail_x rail_z : Rail) (homing_axes : List ℕ) :
    List ℕ × List HomeCall :=
  let home_xy := 0 ∈ homing_axes ∨ 1 ∈ homing_axes
  let home_z := 2 ∈ homing_axes
  let updated_axes := (if home_xy then [0, 1] else []) ++
    (if home_z then [2] else [])
  let calls := (if home_xy then [home_axis 0 rail_x, home_axis 1 rail_x]
      else []) ++
    (if home_z then [home_axis 2 rail_z] else [])
  (updated_axes, calls)

/-- Claim C7 counterexample: requesting only axis 0 makes strategy A issue
two `home_rails` hand-offs for the planar homing, not the single combined
hand-off the claim describes. -/
theorem c7_counterexample :
    ((home railA railB [0]).2).length = 2 ∧
    ((home railA railB [0]).2).length ≠ 1 := by
  have h : ((home railA railB [0]).2).length = 2 := by
    simp [home]
  exact ⟨h, by rw [h]; norm_num⟩

/-- Claim C7 (amended): when either planar axis is requested, `home`
normalizes the axes set to include both planar axes and homes both of them
using the radial rail, issuing one single-rail homing move per planar axis —
two hand-offs of `(rails, force_positions, home_positions)` to the external
homing coordinator for the planar homing, each with the radial rail. -/
theorem c7_home_planar (rail_x rail_z : Rail) (homing_axes : List ℕ)
    (h : 0 ∈ homing_axes ∨ 1 ∈ homing_axes) :
    (home rail_x rail_z homing_axes).1 =
      [0, 1] ++ (if 2 ∈ homing_axes then [2] else []) ∧
    (home rail_x rail_z homing_axes).2 =
      [home_axis 0 rail_x, home_axis 1 rail_x] ++
        (if 2 ∈ homing_axes then [home_axis 2 rail_z] else []) ∧
    (home_axis 0 rail_x).rails = [rail_x] ∧
    (home_axis 1 rail_x).rails = [rail_x] := by
  simp only [home]
  rw [if_pos h, if_pos h]
  exact ⟨rfl, rfl, rfl, rfl⟩

/-- Witness for the amended C7: requesting only axis 1. -/
theorem c7_home_planar_witness :
    (home railA railB [1]).1 = [0, 1] ++ (if 2 ∈ ([1] : List ℕ) then [2] else []) ∧
    (home railA railB [1]).2 =
      [home_axis 0 railA, home_axis 1 railA] ++
        (if 2 ∈ ([1] : List ℕ) then [home_axis 2 railB] else []) ∧
    (home_axis 0 railA).rails = [railA] ∧
    (home_axis 1 railA).rails = [railA] :=
  c7_home_planar railA railB [1] (by simp)

/-- From the loop body of `PolarXZKinematics.home2` (strategy B): the homing
hand-off for one requested axis.  `rail = self.rails[axis]` with
`self.rails = [rail_x, rail_z]`; an axis index outside the rails list makes
the Python lookup raise `IndexError`, embedded as `none`. -/
noncomputable def home2_axis (rails : List Rail) (axis : ℕ) : Option HomeCall :=
  match rails[axis]? with
  | none => none
  | some rail =>
    let homepos : List (Option ℝ) :=
      List.set [none, none, none, none] axis (some rail.position_endstop)
    let forcepos :=
      if rail.positive_dir then
        List.set homepos axis
          (some (rail.position_endstop -
            1.5 * (rail.position_endstop - rail.position_min)))
      else
        List.set homepos axis
          (some (rail.position_endstop +
            1.5 * (rail.position_max - rail.position_endstop)))
    some ⟨[rail], forcepos, homepos⟩

/-- From `PolarXZKinematics.home2` (strategy B): iterate over the requested
axes in order.  The source's `if axis == 1: next` evaluates the bare builtin
`next` and discards it, so it does not alter control flow and no axis is
skipped.  The boolean records whether the iteration aborted with an
`IndexError` (axis index outside `self.rails`); the calls issued before the
abort are kept. -/
noncomputable def home2 (rail_x rail_z : Rail) :
    List ℕ → List HomeCall × Bool
  | [] => ([], false)
  | axis :: rest =>
    match home2_axis [rail_x, rail_z] axis with
    | none => ([], true)
    | some c =>
      let r := home2 rail_x rail_z rest
      (c :: r.1, r.2)

/-- Radial rail with its endstop strictly inside the travel range
[0, 10]. -/
noncomputable def railC : Rail := ⟨0, 10, 4, true⟩

/-- Claim C8 counterexample: with the radial rail's endstop at 4 inside the
range [0, 10], homing axis 0 forces to `4 − 1.5·(4−0) = −2`, not the
`4 − 1.5·(10−0) = −11` that an offset of 1.5× the rail's range would give;
and requesting axis 2 aborts with an index error (`self.rails` has two
entries) instead of issuing a `home_rails` call. -/
theorem c8_counterexample :
    ((home2 railC railB [0]).1.map (fun c => c.forcepos)) =
      [[some (-2), none, none, none]] ∧
    ((-2 : ℝ) ≠ 4 - 1.5 * (10 - 0)) ∧
    home2 railC railB [2] = ([], true) := by
  refine ⟨?_, by norm_num, ?_⟩
  · show ((home2 railC railB [0]).1.map (fun c => c.forcepos)) = _
    simp only [home2, home2_axis, railC]
    norm_num
  · rfl

/-- For an axis index that designates an existing rail, the strategy-B
hand-off homes that rail with the home position at its endstop and the force
position offset from the endstop by 1.5× the distance to the travel limit
opposite the homing direction. -/
theorem home2_axis_eq (rail_x rail_z : Rail) (axis : ℕ) (rail : Rail)
    (hrail : ([rail_x, rail_z] : List Rail)[axis]? = some rail) :
    home2_axis [rail_x, rail_z] axis =
      some ⟨[rail],
        List.set (List.set [none, none, none, none] axis
            (some rail.position_endstop)) axis
          (some (if rail.positive_dir then
              rail.position_endstop -
                1.5 * (rail.position_endstop - rail.position_min)
            else
              rail.position_endstop +
                1.5 * (rail.position_max - rail.position_endstop))),
        List.set [none, none, none, none] axis
          (some rail.position_endstop)⟩ := by
  simp only [home2_axis, hrail]
  cases hpd : rail.positive_dir <;> simp [hpd]

/-- Helper for C8: with in-range axis indices, `home2` issues one hand-off
per requested axis, in order, and does not abort. -/
theorem home2_filterMap (rail_x rail_z : Rail) (homing_axes : List ℕ)
    (h : ∀ a ∈ homing_axes, a < 2) :
    home2 rail_x rail_z homing_axes =
      (homing_axes.filterMap (home2_axis [rail_x, rail_z]), false) ∧
    (homing_axes.filterMap (home2_axis [rail_x, rail_z])).length =
      homing_axes.length := by
  induction homing_axes with
  | nil => simp [home2]
  | cons a rest ih =>
    have ha : a < 2 := h a (by simp)
    have hrest := ih (fun x hx => h x (by simp [hx]))
    have hrail : ∃ rail, ([rail_x, rail_z] : List Rail)[a]? = some rail := by
      match a, ha with
      | 0, _ => exact ⟨rail_x, rfl⟩
      | 1, _ => exact ⟨rail_z, rfl⟩
    obtain ⟨rail, hrail⟩ := hrail
    have hc := home2_axis_eq rail_x rail_z a rail hrail
    simp [home2, hc, List.filterMap_cons, hrest.1, hrest.2]

/-- Claim C8 (amended): for every requested axes list whose entries index an
existing rail (0 for the radial rail, 1 for the Z rail), `home2` issues
exactly one `home_rails` call per requested axis, one at a time in the order
given — the `if axis == 1` conditional evaluates a bare `next` and does not
alter control flow, so no requested axis is skipped — and each call's force
position offsets the home position (the rail's endstop) by 1.5 times the
distance from the endstop to the rail's travel limit opposite the homing
approach (the minimum limit when the homing direction is positive, the
maximum limit otherwise). -/
theorem c8_home2_per_axis (rail_x rail_z : Rail) (homing_axes : List ℕ)
    (h : ∀ a ∈ homing_axes, a < 2) :
    home2 rail_x rail_z homing_axes =
      (homing_axes.filterMap (home2_axis [rail_x, rail_z]), false) ∧
    (homing_axes.filterMap (home2_axis [rail_x, rail_z])).length =
      homing_axes.length ∧
    (∀ (axis : ℕ) (rail : Rail),
      ([rail_x, rail_z] : List Rail)[axis]? = some rail →
      home2_axis [rail_x, rail_z] axis =
        some ⟨[rail],
          List.set (List.set [none, none, none, none] axis
              (some rail.position_endstop)) axis
            (some (if rail.positive_dir then
                rail.position_endstop -
                  1.5 * (rail.position_endstop - rail.position_min)
              else
                rail.position_endstop +
                  1.5 * (rail.position_max - rail.position_endstop))),
          List.set [none, none, none, none] axis
            (some rail.position_endstop)⟩) :=
  ⟨(home2_filterMap rail_x rail_z homing_axes h).1,
   (home2_filterMap rail_x rail_z homing_axes h).2,
   fun axis rail hrail => home2_axis_eq rail_x rail_z axis rail hrail⟩

/-- Witness for the amended C8: homing axes [0, 1] with concrete rails. -/
theorem c8_home2_per_axis_witness :
    home2 railC railB [0, 1] =
      (([0, 1] : List ℕ).filterMap (home2_axis [railC, railB]), false) ∧
    (([0, 1] : List ℕ).filterMap (home2_axis [railC, railB])).length =
      ([0, 1] : List ℕ).length ∧
    (∀ (axis : ℕ) (rail : Rail),
      ([railC, railB] : List Rail)[axis]? = some rail →
      home2_axis [railC, railB] axis =
        some ⟨[rail],
          List.set (List.set [none, none, none, none] axis
              (some rail.position_endstop)) axis
            (some (if rail.positive_dir then
                rail.position_endstop -
                  1.5 * (rail.position_endstop - rail.position_min)
              else
                rail.position_endstop +
                  1.5 * (rail.position_max - rail.position_endstop))),
          List.set [none, none, none, none] axis
            (some rail.position_endstop)⟩) :=
  c8_home2_per_axis railC railB [0, 1] (by decide)

/-- The four locals of `segment_move`'s selection loop:
`closest_to_start`, `closest_to_end`, `closest_start_pos`,
`closest_end_pos`, initialised to `(100000, 100000, None, None)`. -/
structure SelState where
  closest_to_start : ℝ
  closest_to_end : ℝ
  closest_start_pos : Option (ℝ × ℝ)
  closest_end_pos : Option (ℝ × ℝ)

/-- One iteration of `segment_move`'s selection loop over a candidate
detour point. -/
noncomputable def selStep (start_pos end_pos : ℝ × ℝ) (st : SelState)
    (o : ℝ × ℝ) : SelState :=
  let dist_to_end := distance o end_pos
  let dist_to_start := distance o start_pos
  let st1 :=
    if dist_to_end < st.closest_to_end then
      { st with closest_to_end := dist_to_end, closest_end_pos := some o }
    else st
  if dist_to_start < st1.closest_to_start then
    { st1 with closest_to_start := dist_to_start, closest_start_pos := some o }
  else st1

/-- The candidate detour points of `segment_move`: two points on the Y axis
when the move runs along X = 0, two on the X axis when it runs along Y = 0,
all four otherwise. -/
noncomputable def move_options (start_pos end_pos : ℝ × ℝ) : List (ℝ × ℝ) :=
  if start_pos.1 = 0 ∧ end_pos.1 = 0 then
    [(0, 0.005), (0, -0.005)]
  else if start_pos.2 = 0 ∧ end_pos.2 = 0 then
    [(0.005, 0), (-0.005, 0)]
  else
    [(0, 0.005), (0.005, 0), (0, -0.005), (-0.005, 0)]

/-- From `PolarXZKinematics.segment_move`: `None` (no segmentation) when the
move does not cross the origin per `crosses_point`; otherwise the 3-segment
detour path through the selected via points.  Path endpoints are wrapped in
`Option` because the selection loop's results are the Python locals
initialised to `None`, which reach the output unchanged when no candidate
beats the initial sentinel distance 100000. -/
noncomputable def segment_move (start_pos end_pos : ℝ × ℝ) :
    Option (List (Option (ℝ × ℝ) × Option (ℝ × ℝ))) :=
  if crosses_point (0, 0) start_pos end_pos then
    let final := (move_options start_pos end_pos).foldl
      (selStep start_pos end_pos) ⟨100000, 100000, none, none⟩
    some [(some start_pos, final.closest_start_pos),
          (final.closest_start_pos, final.closest_end_pos),
          (final.closest_end_pos, some end_pos)]
  else
    none

/-- Single-target version of the selection step, tracking only the running
best distance to one point and its argmin. -/
noncomputable def nstep (p : ℝ × ℝ) (b : ℝ × Option (ℝ × ℝ)) (o : ℝ × ℝ) :
    ℝ × Option (ℝ × ℝ) :=
  if distance o p < b.1 then (distance o p, some o) else b

/-- The start-side locals of the selection loop coincide with the
single-target fold towards the start point. -/
theorem selStep_start_proj (start_pos end_pos : ℝ × ℝ)
    (opts : List (ℝ × ℝ)) :
    ∀ st : SelState,
      ((opts.foldl (selStep start_pos end_pos) st).closest_to_start,
       (opts.foldl (selStep start_pos end_pos) st).closest_start_pos) =
      opts.foldl (nstep start_pos) (st.closest_to_start, st.closest_start_pos) := by
  induction opts with
  | nil => intro st; rfl
  | cons o rest ih =>
    intro st
    rw [List.foldl_cons, List.foldl_cons, ih]
    by_cases h1 : distance o end_pos < st.closest_to_end <;>
      by_cases h2 : distance o start_pos < st.closest_to_start <;>
      simp [selStep, nstep, h1, h2]

/-- The end-side locals of the selection loop coincide with the
single-target fold towards the end point. -/
theorem selStep_end_proj (start_pos end_pos : ℝ × ℝ)
    (opts : List (ℝ × ℝ)) :
    ∀ st : SelState,
      ((opts.foldl (selStep start_pos end_pos) st).closest_to_end,
       (opts.foldl (selStep start_pos end_pos) st).closest_end_pos) =
      opts.foldl (nstep end_pos) (st.closest_to_end, st.closest_end_pos) := by
  induction opts with
  | nil => intro st; rfl
  | cons o rest ih =>
    intro st
    rw [List.foldl_cons, List.foldl_cons, ih]
    by_cases h1 : distance o end_pos < st.closest_to_end <;>
      by_cases h2 : distance o start_pos < st.closest_to_start <;>
      simp [selStep, nstep, h1, h2]

/-- Specification of a selected via point: either no candidate lies strictly
within the sentinel distance 100000 of `p` and nothing was selected, or the
selected candidate is a member at distance below the sentinel that minimises
the distance to `p` over all candidates. -/
def isNearestWithin (opts : List (ℝ × ℝ)) (p : ℝ × ℝ)
    (r : Option (ℝ × ℝ)) : Prop :=
  (r = none ∧ ∀ c ∈ opts, 100000 ≤ distance c p) ∨
  (∃ v, r = some v ∧ v ∈ opts ∧ distance v p < 100000 ∧
    ∀ c ∈ opts, distance v p ≤ distance c p)

/-- Invariant of the single-target fold: the accumulator always holds the
first minimum-distance candidate seen so far (or nothing, when none beat the
sentinel). -/
theorem nfold_inv (p : ℝ × ℝ) :
    ∀ (opts seen : List (ℝ × ℝ)) (b : ℝ × Option (ℝ × ℝ)),
      (b.2 = none → b.1 = 100000 ∧ ∀ c ∈ seen, 100000 ≤ distance c p) →
      (∀ v, b.2 = some v → v ∈ seen ∧ b.1 = distance v p ∧
        distance v p < 100000 ∧ ∀ c ∈ seen, distance v p ≤ distance c p) →
      ((opts.foldl (nstep p) b).2 = none →
        (opts.foldl (nstep p) b).1 = 100000 ∧
          ∀ c ∈ seen ++ opts, 100000 ≤ distance c p) ∧
      (∀ v, (opts.foldl (nstep p) b).2 = some v →
        v ∈ seen ++ opts ∧ (opts.foldl (nstep p) b).1 = distance v p ∧
        distance v p < 100000 ∧
        ∀ c ∈ seen ++ opts, distance v p ≤ distance c p) := by
  intro opts
  induction opts with
  | nil =>
    intro seen b h1 h2
    simp only [List.foldl_nil, List.append_nil]
    exact ⟨h1, h2⟩
  | cons o rest ih =>
    intro seen b h1 h2
    rw [List.foldl_cons]
    have hb1 : b.1 ≤ 100000 := by
      rcases hb : b.2 with _ | w
      · exact le_of_eq (h1 hb).1
      · rcases h2 w hb with ⟨_, hw1, hw2, _⟩
        exact le_of_lt (hw1 ▸ hw2)
    have hmin : ∀ c ∈ seen, b.1 ≤ distance c p := by
      intro c hc
      rcases hb : b.2 with _ | w
      · exact (h1 hb).1 ▸ (h1 hb).2 c hc
      · rcases h2 w hb with ⟨_, hw1, _, hw4⟩
        exact hw1 ▸ hw4 c hc
    have key := ih (seen ++ [o]) (nstep p b o) ?_ ?_
    · constructor
      · intro hnone
        have := key.1 hnone
        refine ⟨this.1, ?_⟩
        intro c hc
        apply this.2
        simpa [List.append_assoc] using hc
      · intro v hv
        have := key.2 v hv
        refine ⟨?_, this.2.1, this.2.2.1, ?_⟩
        · have := this.1
          simpa [List.append_assoc] using this
        · intro c hc
          apply this.2.2.2
          simpa [List.append_assoc] using hc
    · intro hnone
      unfold nstep at hnone ⊢
      by_cases hlt : distance o p < b.1
      · simp [hlt] at hnone
      · rw [if_neg hlt] at hnone ⊢
        refine ⟨(h1 hnone).1, ?_⟩
        intro c hc
        rcases List.mem_append.mp hc with hc | hc
        · exact (h1 hnone).2 c hc
        · have hco : c = o := by simpa using hc
          subst hco
          exact (h1 hnone).1 ▸ not_lt.mp hlt
    · intro v hv
      unfold nstep at hv ⊢
      by_cases hlt : distance o p < b.1
      · rw [if_pos hlt] at hv ⊢
        have hvo : o = v := by simpa using hv
        subst hvo
        refine ⟨by simp, by simp, lt_of_lt_of_le hlt hb1, ?_⟩
        intro c hc
        rcases List.mem_append.mp hc with hc | hc
        · exact le_of_lt (lt_of_lt_of_le hlt (hmin c hc))
        · have hco : c = o := by simpa using hc
          subst hco
          exact le_refl _
      · rw [if_neg hlt] at hv ⊢
        rcases h2 v hv with ⟨hv1, hv2, hv3, hv4⟩
        refine ⟨List.mem_append.mpr (Or.inl hv1), hv2, hv3, ?_⟩
        intro c hc
        rcases List.mem_append.mp hc with hc | hc
        · exact hv4 c hc
        · have hco : c = o := by simpa using hc
          subst hco
          exact hv2 ▸ not_lt.mp hlt

/-- The single-target fold from the initial sentinel accumulator selects a
via point satisfying `isNearestWithin`. -/
theorem nfold_nearest (p : ℝ × ℝ) (opts : List (ℝ × ℝ)) :
    isNearestWithin opts p ((opts.foldl (nstep p) (100000, none)).2) := by
  have key := nfold_inv p opts [] (100000, none) (by simp) (by simp)
  rcases hval : (opts.foldl (nstep p) (100000, none)).2 with _ | v
  · left
    refine ⟨rfl, ?_⟩
    intro c hc
    exact (key.1 hval).2 c (by simpa using hc)
  · right
    rcases key.2 v hval with ⟨h1, _, h3, h4⟩
    refine ⟨v, rfl, by simpa using h1, h3, ?_⟩
    intro c hc
    exact h4 c (by simpa using hc)

/-- Comparison of two distances reduces to comparing squared distances. -/
theorem distance_lt_distance {p q r t : ℝ × ℝ}
    (h : (q.1 - p.1) ^ 2 + (q.2 - p.2) ^ 2 <
      (t.1 - r.1) ^ 2 + (t.2 - r.2) ^ 2) :
    distance p q < distance r t :=
  Real.sqrt_lt_sqrt (by positivity) h

/-- Monotonicity of `distance` in the squared distance. -/
theorem distance_le_distance {p q r t : ℝ × ℝ}
    (h : (q.1 - p.1) ^ 2 + (q.2 - p.2) ^ 2 ≤
      (t.1 - r.1) ^ 2 + (t.2 - r.2) ^ 2) :
    distance p q ≤ distance r t :=
  Real.sqrt_le_sqrt h

/-- A distance is below a positive bound when the squared distance is below
the bound's square. -/
theorem distance_lt_of_sq_lt {p q : ℝ × ℝ} {c : ℝ} (hc : 0 < c)
    (h : (q.1 - p.1) ^ 2 + (q.2 - p.2) ^ 2 < c ^ 2) :
    distance p q < c :=
  (Real.sqrt_lt' hc).mpr h

/-- A nonnegative bound is below a distance when its square is below the
squared distance. -/
theorem le_distance_of_sq_le {p q : ℝ × ℝ} {c : ℝ} (hc : 0 ≤ c)
    (h : c ^ 2 ≤ (q.1 - p.1) ^ 2 + (q.2 - p.2) ^ 2) :
    c ≤ distance p q :=
  (Real.le_sqrt hc (by positivity)).mpr h

/-- The selection loop on the horizontal-through-origin example move: the
second candidate wins the start side, the first wins the end side. -/
theorem ex1_fold :
    ([(0.005, 0), (-0.005, 0)] : List (ℝ × ℝ)).foldl
        (selStep (-1, 0) (1, 0)) ⟨100000, 100000, none, none⟩ =
      ⟨distance (-0.005, 0) (-1, 0), distance (0.005, 0) (1, 0),
       some (-0.005, 0), some (0.005, 0)⟩ := by
  have h1e : distance ((0.005 : ℝ), (0 : ℝ)) (1, 0) < 100000 :=
    distance_lt_of_sq_lt (by norm_num) (by norm_num)
  have h1s : distance ((0.005 : ℝ), (0 : ℝ)) (-1, 0) < 100000 :=
    distance_lt_of_sq_lt (by norm_num) (by norm_num)
  have h2e : ¬ distance ((-0.005 : ℝ), (0 : ℝ)) (1, 0) <
      distance ((0.005 : ℝ), (0 : ℝ)) (1, 0) :=
    not_lt.mpr (distance_le_distance (by norm_num))
  have h2s : distance ((-0.005 : ℝ), (0 : ℝ)) (-1, 0) <
      distance ((0.005 : ℝ), (0 : ℝ)) (-1, 0) :=
    distance_lt_distance (by norm_num)
  rw [List.foldl_cons, List.foldl_cons, List.foldl_nil]
  simp only [selStep]
  rw [if_pos h1e]
  simp only []
  rw [if_pos h1s]
  simp only []
  rw [if_neg h2e]
  simp only []
  rw [if_pos h2s]

/-- `segment_move` on the horizontal-through-origin move (-1,0) → (1,0)
returns exactly the claimed 3-segment detour. -/
theorem seg_ex1 :
    segment_move (-1, 0) (1, 0) =
      some [(some (-1, 0), some (-0.005, 0)),
            (some (-0.005, 0), some (0.005, 0)),
            (some (0.005, 0), some (1, 0))] := by
  have hcross : crosses_point (0, 0) (-1, 0) (1, 0) := by
    constructor <;> norm_num [sqrdistance]
  have hopts : move_options (-1, 0) (1, 0) = [(0.005, 0), (-0.005, 0)] := by
    unfold move_options
    norm_num
  simp only [segment_move]
  rw [if_pos hcross, hopts, ex1_fold]

/-- `segment_move` on the move (2,2) → (3,3), which stays away from the
origin, returns the no-segmentation sentinel. -/
theorem seg_ex2 : segment_move (2, 2) (3, 3) = none := by
  have hcross : ¬ crosses_point (0, 0) (2, 2) (3, 3) := by
    intro h
    have := h.1
    norm_num [sqrdistance] at this
  simp only [segment_move]
  rw [if_neg hcross]

/-- The selection loop on the far-endpoint move (200000,0) → (-200000,0):
every candidate is at least 100000 away from each endpoint, so neither local
is ever updated and both via points stay `None`. -/
theorem ex3_fold :
    ([(0.005, 0), (-0.005, 0)] : List (ℝ × ℝ)).foldl
        (selStep (200000, 0) (-200000, 0)) ⟨100000, 100000, none, none⟩ =
      ⟨100000, 100000, none, none⟩ := by
  have g1e : ¬ distance ((0.005 : ℝ), (0 : ℝ)) (-200000, 0) < 100000 :=
    not_lt.mpr (le_distance_of_sq_le (by norm_num) (by norm_num))
  have g1s : ¬ distance ((0.005 : ℝ), (0 : ℝ)) (200000, 0) < 100000 :=
    not_lt.mpr (le_distance_of_sq_le (by norm_num) (by norm_num))
  have g2e : ¬ distance ((-0.005 : ℝ), (0 : ℝ)) (-200000, 0) < 100000 :=
    not_lt.mpr (le_distance_of_sq_le (by norm_num) (by norm_num))
  have g2s : ¬ distance ((-0.005 : ℝ), (0 : ℝ)) (200000, 0) < 100000 :=
    not_lt.mpr (le_distance_of_sq_le (by norm_num) (by norm_num))
  rw [List.foldl_cons, List.foldl_cons, List.foldl_nil]
  simp only [selStep]
  rw [if_neg g1e]
  simp only []
  rw [if_neg g1s]
  simp only []
  rw [if_neg g2e]
  simp only []
  rw [if_neg g2s]

/-- `segment_move` on the far-endpoint move (200000,0) → (-200000,0): the
move crosses the origin, but both via points remain `None` because every
candidate is at least the sentinel distance 100000 from each endpoint. -/
theorem seg_ex3 :
    segment_move (200000, 0) (-200000, 0) =
      some [(some (200000, 0), none), (none, none),
            (none, some (-200000, 0))] := by
  have hcross : crosses_point (0, 0) (200000, 0) (-200000, 0) := by
    constructor <;> norm_num [sqrdistance]
  have hopts : move_options (200000, 0) (-200000, 0) =
      [(0.005, 0), (-0.005, 0)] := by
    unfold move_options
    norm_num
  simp only [segment_move]
  rw [if_pos hcross, hopts, ex3_fold]

/-- Claim C2 counterexample: on the origin-crossing move
(200000,0) → (-200000,0) the claim predicts via points (0.005,0) (nearest
candidate to the start) and (-0.005,0) (nearest to the end), but the code's
selection loop never beats its initial sentinel distance 100000, so both via
points remain unset (`None`). -/
theorem c2_counterexample :
    segment_move (200000, 0) (-200000, 0) ≠
      some [(some (200000, 0), some (0.005, 0)),
            (some (0.005, 0), some (-0.005, 0)),
            (some (-0.005, 0), some (-200000, 0))] ∧
    segment_move (200000, 0) (-200000, 0) =
      some [(some (200000, 0), none), (none, none),
            (none, some (-200000, 0))] := by
  refine ⟨?_, seg_ex3⟩
  rw [seg_ex3]
  simp

/-- Claim C2 (amended): `segment_move` returns the no-segmentation sentinel
iff the move does not cross the origin per `crosses_point`; otherwise it
returns the 3-segment path `[(start, via_start), (via_start, via_end),
(via_end, end)]`, where each via point is selected independently over the
candidate set of `move_options` and equals the candidate nearest to the
respective endpoint provided some candidate lies strictly within the
selection loop's initial sentinel distance 100000 of it (and is left unset
otherwise); on the horizontal-through-origin move (-1,0) → (1,0) it returns
exactly the claimed 3-segment path, and on (2,2) → (3,3) it returns the
sentinel. -/
theorem c2_segment_move (start_pos end_pos : ℝ × ℝ) :
    (segment_move start_pos end_pos = none ↔
      ¬ crosses_point (0, 0) start_pos end_pos) ∧
    (crosses_point (0, 0) start_pos end_pos → ∃ vs ve,
      segment_move start_pos end_pos =
        some [(some start_pos, vs), (vs, ve), (ve, some end_pos)] ∧
      isNearestWithin (move_options start_pos end_pos) start_pos vs ∧
      isNearestWithin (move_options start_pos end_pos) end_pos ve) ∧
    segment_move (-1, 0) (1, 0) =
      some [(some (-1, 0), some (-0.005, 0)),
            (some (-0.005, 0), some (0.005, 0)),
            (some (0.005, 0), some (1, 0))] ∧
    segment_move (2, 2) (3, 3) = none := by
  refine ⟨?_, ?_, seg_ex1, seg_ex2⟩
  · by_cases hcross : crosses_point (0, 0) start_pos end_pos <;>
      simp [segment_move, hcross]
  · intro hcross
    refine ⟨((move_options start_pos end_pos).foldl
        (selStep start_pos end_pos) ⟨100000, 100000, none, none⟩).closest_start_pos,
      ((move_options start_pos end_pos).foldl
        (selStep start_pos end_pos) ⟨100000, 100000, none, none⟩).closest_end_pos,
      ?_, ?_, ?_⟩
    · simp only [segment_move]
      rw [if_pos hcross]
    · have hproj := selStep_start_proj start_pos end_pos
        (move_options start_pos end_pos) ⟨100000, 100000, none, none⟩
      have hpos := congrArg Prod.snd hproj
      simp only at hpos
      rw [hpos]
      exact nfold_nearest start_pos (move_options start_pos end_pos)
    · have hproj := selStep_end_proj start_pos end_pos
        (move_options start_pos end_pos) ⟨100000, 100000, none, none⟩
      have hpos := congrArg Prod.snd hproj
      simp only at hpos
      rw [hpos]
      exact nfold_nearest end_pos (move_options start_pos end_pos)

/-- Witness for the amended C2 at the non-crossing concrete move. -/
theorem c2_segment_move_witness : segment_move (2, 2) (3, 3) = none :=
  (c2_segment_move (2, 2) (3, 3)).2.2.2

end PolarXZ
